import Mathlib

/-!
Shallow embedding of the order-lifecycle and recycle-bin core of the
Wickrama hardware pickup system (src/unnamed/part_000, with the
src/wickramaerp/server.js variant agreeing on every operation modelled
here except order-number generation).

JS conventions are modelled explicitly:
* timestamps (ISO strings produced by Date and compared as Date values)
  are integers (milliseconds);
* object fields that may be absent (JS undefined) are Option;
* the JS truthiness idiom such as x or-else d on strings treats both
  undefined and the empty string as falsy (jsOr / jsOrOpt below);
* findIndex followed by splice is extractFirst: remove the first element
  satisfying the predicate, keeping the order of the rest.
-/

namespace Wickrama

/-- One approval record: staff identity plus timestamp
(src/unnamed/part_000 lines 524-527). -/
structure Approval where
  staff : String
  timestamp : Int
deriving DecidableEq

/-- One status-history record (src/unnamed/part_000 lines 443-447,
493-497, 532-536). The staff field comes straight from the request body
and may be absent there, hence Option. -/
structure HistoryEntry where
  status : String
  timestamp : Int
  staff : Option String
deriving DecidableEq

/-- An order record as built by the create handler
(src/unnamed/part_000 lines 432-448). The five request-derived fields
are Option because the handler copies them from the JSON body without
any validation, so they can be absent (JS undefined). The three
deletion-metadata fields are absent (none) on active orders and are set
by the soft-delete handler. -/
structure Order where
  order_number : String
  customer_name : Option String
  customer_phone : Option String
  items : Option (List String)
  payment_method : Option String
  invoice_number : String
  status : String
  created_at : Int
  created_by : Option String
  approvals : List Approval
  status_history : List HistoryEntry
  deleted_at : Option Int
  deleted_by : Option String
  original_status : Option String
deriving DecidableEq

/-- One line of the append-only audit log (logAudit,
src/unnamed/part_000 lines 384-388); the timestamp and free-text details
are not needed by any property and are omitted. -/
structure AuditRecord where
  action : String
  orderId : String
  staff : String
deriving DecidableEq

/-- One export snapshot written before permanent deletion
(exportOrderData, src/unnamed/part_000 lines 363-381): the order data
plus export timestamp and reason tag. The generated filename is a
function of the order number and timestamp and is not modelled
separately. -/
structure ExportRecord where
  order : Order
  exported_at : Int
  export_reason : String
deriving DecidableEq

/-- The persistent state: orders.json, deleted_orders.json, the exports
directory and the audit log. -/
structure Stores where
  orders : List Order
  deletedOrders : List Order
  exports : List ExportRecord
  audit : List AuditRecord
deriving DecidableEq

/-- The JSON body accepted by the create-order handler
(src/unnamed/part_000 line 429); every field may be absent. -/
structure CreateReq where
  customerName : Option String
  customerPhone : Option String
  items : Option (List String)
  paymentMethod : Option String
  staffName : Option String
deriving DecidableEq

def emptyStores : Stores := { orders := [], deletedOrders := [], exports := [], audit := [] }

/-- JS `s || d` on a string: the empty string is falsy. -/
def jsOr (s d : String) : String := if s = "" then d else s

/-- JS `s || d` where s may also be undefined (modelled as none). -/
def jsOrOpt (s : Option String) (d : String) : String :=
  match s with
  | some v => if v = "" then d else v
  | none => d

/-- JS String.prototype.padStart(3, '0'). -/
def padStart3 (s : String) : String :=
  if 3 ≤ s.length then s else String.mk (List.replicate (3 - s.length) '0') ++ s

/-- JS String.prototype.toLowerCase, per character. -/
def toLowerStr (s : String) : String := String.mk (s.data.map Char.toLower)

/-- JS String.prototype.includes: substring containment. -/
def strContains (s pat : String) : Bool :=
  (List.range (s.data.length + 1)).any (fun i => pat.data.isPrefixOf (s.data.drop i))

/-- JS s.replace with the non-digit global pattern and empty replacement:
keep only digit characters. -/
def digitsOnly (s : String) : String := String.mk (s.data.filter Char.isDigit)

/-- generateOrderNumber (src/unnamed/part_000 lines 325-330): the next
number is derived from the current length of the active order list. -/
def generateOrderNumber (orders : List Order) : String :=
  "WHS-" ++ padStart3 (toString (orders.length + 1))

/-- The create-order handler (src/unnamed/part_000 lines 428-457). It
performs no validation of the request body: it unconditionally builds
the new order, appends it to the store and reports success with the
allocated order number. An absent staffName is interpolated into the
audit line as the string "undefined" by the JS template literal. -/
def createOrder (req : CreateReq) (now : Int) (st : Stores) : Stores × String :=
  let orderNumber := generateOrderNumber st.orders
  let newOrder : Order :=
    { order_number := orderNumber,
      customer_name := req.customerName,
      customer_phone := req.customerPhone,
      items := req.items,
      payment_method := req.paymentMethod,
      invoice_number := "",
      status := "received",
      created_at := now,
      created_by := req.staffName,
      approvals := [],
      status_history := [{ status := "received", timestamp := now, staff := req.staffName }],
      deleted_at := none,
      deleted_by := none,
      original_status := none }
  ({ st with
      orders := st.orders ++ [newOrder],
      audit := st.audit ++ [⟨"ORDER_CREATED", orderNumber, req.staffName.getD "undefined"⟩] },
   orderNumber)

/-- JS findIndex followed by splice(idx, 1): remove the first element
satisfying the predicate, returning it and the remaining list in order,
or none when no element matches. -/
def extractFirst {α : Type} (p : α → Bool) : List α → Option (α × List α)
  | [] => none
  | x :: xs =>
    if p x then some (x, xs)
    else
      match extractFirst p xs with
      | some (a, rest) => some (a, x :: rest)
      | none => none

/-- The soft-delete handler (src/unnamed/part_000 lines 71-108): remove
the first order with the given number from the active store, stamp
deletion metadata (deleted_at, deleted_by with the manager fallback,
original_status), overwrite status with "deleted", append to the recycle
bin, and answer with the new recycle-bin count. -/
def softDelete (orderNumber staffName : String) (now : Int) (st : Stores) :
    Except String (Stores × Nat) :=
  match extractFirst (fun o => o.order_number == orderNumber) st.orders with
  | none => Except.error "Order not found"
  | some (o, remaining) =>
    let deletedOrder : Order :=
      { o with deleted_at := some now,
               deleted_by := some (jsOr staffName "manager"),
               original_status := some o.status,
               status := "deleted" }
    let bin := st.deletedOrders ++ [deletedOrder]
    Except.ok
      ({ st with
          orders := remaining,
          deletedOrders := bin,
          audit := st.audit ++ [⟨"ORDER_MOVED_TO_RECYCLE", orderNumber, jsOr staffName "manager"⟩] },
       bin.length)

/-- The restore handler (src/unnamed/part_000 lines 121-153): remove the
first matching entry from the recycle bin, restore status from
original_status with the JS falsy fallback to "received", delete the
three deletion-metadata fields, and append to the active store. -/
def restore (orderNumber staffName : String) (st : Stores) : Except String Stores :=
  match extractFirst (fun o => o.order_number == orderNumber) st.deletedOrders with
  | none => Except.error "Order not found in recycle bin"
  | some (o, remaining) =>
    let restoredOrder : Order :=
      { o with status := jsOrOpt o.original_status "received",
               deleted_at := none,
               deleted_by := none,
               original_status := none }
    Except.ok
      { st with
          deletedOrders := remaining,
          orders := st.orders ++ [restoredOrder],
          audit := st.audit ++ [⟨"ORDER_RESTORED", orderNumber, jsOr staffName "manager"⟩] }

/-- exportOrderData (src/unnamed/part_000 lines 363-381): snapshot of
the order plus export timestamp and reason tag. -/
def exportOrderData (o : Order) (now : Int) : ExportRecord :=
  { order := o, exported_at := now, export_reason := "permanent_deletion" }

/-- The permanent-delete handler (src/unnamed/part_000 lines 156-184):
remove the first matching recycle-bin entry, export it, keep the active
store untouched. -/
def permanentlyDelete (orderNumber staffName : String) (now : Int) (st : Stores) :
    Except String (Stores × ExportRecord) :=
  match extractFirst (fun o => o.order_number == orderNumber) st.deletedOrders with
  | none => Except.error "Order not found in recycle bin"
  | some (o, remaining) =>
    let ex := exportOrderData o now
    Except.ok
      ({ st with
          deletedOrders := remaining,
          exports := st.exports ++ [ex],
          audit := st.audit ++ [⟨"ORDER_PERMANENTLY_DELETED", orderNumber, jsOr staffName "manager"⟩] },
       ex)

/-- Milliseconds in seven days; the reference computes the cutoff with
setDate(getDate() - 7) on a Date, i.e. seven calendar days before now. -/
def sevenDays : Int := 7 * 86400000

/-- The keep test of autoCleanupDeletedOrders (src/unnamed/part_000
line 403): kept when the parsed deletion timestamp is strictly later
than the seven-day cutoff. A missing deleted_at parses to NaN in JS and
every comparison with NaN is false, so such an entry is purged. -/
def cleanupKeeps (now : Int) (o : Order) : Bool :=
  match o.deleted_at with
  | some t => decide (now - sevenDays < t)
  | none => false

/-- autoCleanupDeletedOrders (src/unnamed/part_000 lines 391-420):
partition the recycle bin by the seven-day cutoff, export each purged
entry and write one SYSTEM audit line for it, and rewrite the bin with
the kept entries only when at least one entry was purged. -/
def autoCleanupDeletedOrders (now : Int) (st : Stores) : Stores :=
  let toKeep := st.deletedOrders.filter (cleanupKeeps now)
  let purged := st.deletedOrders.filter (fun o => !(cleanupKeeps now o))
  let st' := { st with
      exports := st.exports ++ purged.map (fun o => exportOrderData o now),
      audit := st.audit ++ purged.map (fun o => ⟨"AUTO_CLEANUP", o.order_number, "SYSTEM"⟩) }
  if 0 < purged.length then { st' with deletedOrders := toKeep } else st'

/-- The per-order body of the approval handler (src/unnamed/part_000
lines 517-537): reject a staff member who already approved, otherwise
push the approval and, when the count has reached 3 while the status is
still "received", promote to "approved" with one SYSTEM history entry.
The handler answers with the new approval count (line 544). -/
def addApprovalToOrder (staffName : String) (now : Int) (o : Order) :
    Except String (Order × Nat) :=
  match o.approvals.find? (fun a => a.staff == staffName) with
  | some _ => Except.error "Staff member already approved this order"
  | none =>
    let o1 : Order := { o with approvals := o.approvals ++ [{ staff := staffName, timestamp := now }] }
    let o2 : Order :=
      if 3 ≤ o1.approvals.length ∧ o1.status = "received" then
        { o1 with status := "approved",
                  status_history := o1.status_history ++
                    [{ status := "approved", timestamp := now, staff := some "SYSTEM" }] }
      else o1
    Except.ok (o2, o2.approvals.length)

/-- JS findIndex followed by an in-place update of the found element:
apply the fallible per-element function to the first element satisfying
the predicate, keeping its position; the not-found error is the one the
order routes produce. -/
def updateFirstWith {α β : Type} (p : α → Bool) (f : α → Except String (α × β)) :
    List α → Except String (List α × β)
  | [] => Except.error "Order not found"
  | x :: xs =>
    if p x then
      match f x with
      | Except.ok (x', b) => Except.ok (x' :: xs, b)
      | Except.error e => Except.error e
    else
      match updateFirstWith p f xs with
      | Except.ok (xs', b) => Except.ok (x :: xs', b)
      | Except.error e => Except.error e

/-- The approval handler over the whole store (src/unnamed/part_000
lines 508-545): locate the order by number, apply the per-order body in
place. On the duplicate-approval error the handler returns before any
mutation, so the store is left exactly as it was. -/
def addApproval (orderNumber staffName : String) (now : Int) (orders : List Order) :
    Except String (List Order × Nat) :=
  updateFirstWith (fun o => o.order_number == orderNumber) (addApprovalToOrder staffName now) orders

/-- The per-order body of the status-update handler (src/unnamed/part_000
lines 485-497): set the status unconditionally, overwrite the invoice
number only when the given value is truthy (present and non-empty), and
append one history entry. -/
def updateStatusOrder (status staffName : String) (invoiceNumber : Option String) (now : Int)
    (o : Order) : Order :=
  let o1 : Order := { o with status := status }
  let o2 : Order :=
    match invoiceNumber with
    | some inv => if inv = "" then o1 else { o1 with invoice_number := inv }
    | none => o1
  { o2 with status_history := o2.status_history ++
      [{ status := status, timestamp := now, staff := some staffName }] }

/-- The status-update handler over the whole store (src/unnamed/part_000
lines 476-505). -/
def updateStatus (orderNumber status staffName : String) (invoiceNumber : Option String)
    (now : Int) (orders : List Order) : Except String (List Order) :=
  match updateFirstWith (fun o => o.order_number == orderNumber)
      (fun o => Except.ok (updateStatusOrder status staffName invoiceNumber now o, ())) orders with
  | Except.ok (orders', _) => Except.ok orders'
  | Except.error e => Except.error e

/-- The query test of the search handler (src/unnamed/part_000 lines
553-557): case-insensitive substring on customer name and order number,
plain substring on the phone. A JS record lacking one of the optional
fields would make the handler throw; the getD branches never fire on the
well-formed stores the theorems quantify over. -/
def matchesSearch (q : String) (o : Order) : Bool :=
  strContains (toLowerStr (o.customer_name.getD "")) (toLowerStr q) ||
  strContains (toLowerStr o.order_number) (toLowerStr q) ||
  strContains (o.customer_phone.getD "") q

/-- The search handler (src/unnamed/part_000 lines 548-565): filter by
the query when it is truthy, then by status unless it is falsy or the
literal "all". -/
def searchOrders (q : Option String) (status : Option String) (orders : List Order) : List Order :=
  let orders1 :=
    match q with
    | some qs => if qs = "" then orders else orders.filter (matchesSearch qs)
    | none => orders
  match status with
  | some s => if s = "" ∨ s = "all" then orders1 else orders1.filter (fun o => o.status == s)
  | none => orders1

/-- One request against the store-moving endpoints, for reachability
statements: create, soft delete, restore, permanent delete. -/
inductive Op where
  | create (req : CreateReq) (now : Int)
  | softDel (orderNumber staffName : String) (now : Int)
  | restoreOp (orderNumber staffName : String)
  | permDel (orderNumber staffName : String) (now : Int)

/-- Whether the request touches only the recycle-bin endpoints. -/
def Op.isBin : Op → Bool
  | Op.create _ _ => false
  | _ => true

/-- Apply one request; a handler that answers with an error leaves the
persisted state untouched (the handlers return before any save). -/
def applyOp (st : Stores) : Op → Stores
  | Op.create req now => (createOrder req now st).1
  | Op.softDel n s now =>
    match softDelete n s now st with
    | Except.ok (st', _) => st'
    | Except.error _ => st
  | Op.restoreOp n s =>
    match restore n s st with
    | Except.ok st' => st'
    | Except.error _ => st
  | Op.permDel n s now =>
    match permanentlyDelete n s now st with
    | Except.ok (st', _) => st'
    | Except.error _ => st

/-- Run a sequence of requests. -/
def runOps (st : Stores) (ops : List Op) : Stores := ops.foldl applyOp st

/-- No order number occurs in both the active store and the recycle bin. -/
def storesDisjoint (st : Stores) : Prop :=
  ∀ o ∈ st.orders, o.order_number ∉ st.deletedOrders.map (fun b => b.order_number)

instance (st : Stores) : Decidable (storesDisjoint st) := by
  unfold storesDisjoint; infer_instance

end Wickrama

namespace Wickrama

/-! ### Inversion lemmas for the list-surgery combinators -/

theorem extractFirst_eq_some {α : Type} {p : α → Bool} :
    ∀ {l rest : List α} {a : α}, extractFirst p l = some (a, rest) →
      p a = true ∧ ∃ l1 l2, (∀ x ∈ l1, p x = false) ∧ l = l1 ++ a :: l2 ∧ rest = l1 ++ l2 := by
  intro l
  induction l with
  | nil => intro rest a h; simp [extractFirst] at h
  | cons x xs ih =>
    intro rest a h
    rw [extractFirst] at h
    by_cases hp : p x
    · rw [if_pos hp] at h
      simp only [Option.some.injEq, Prod.mk.injEq] at h
      obtain ⟨rfl, rfl⟩ := h
      exact ⟨hp, [], xs, by simp, rfl, rfl⟩
    · rw [if_neg hp] at h
      cases hE : extractFirst p xs with
      | none => rw [hE] at h; cases h
      | some pr =>
        obtain ⟨b, rest'⟩ := pr
        rw [hE] at h
        simp only [Option.some.injEq, Prod.mk.injEq] at h
        obtain ⟨rfl, rfl⟩ := h
        obtain ⟨hb, l1, l2, hl1, hxs, hrest⟩ := ih hE
        refine ⟨hb, x :: l1, l2, ?_, ?_, ?_⟩
        · intro y hy
          rcases List.mem_cons.mp hy with rfl | hy'
          · exact Bool.eq_false_iff.mpr hp
          · exact hl1 y hy'
        · rw [List.cons_append, hxs]
        · rw [List.cons_append, hrest]

theorem extractFirst_append_singleton {α : Type} {p : α → Bool} {l : List α} {a : α}
    (hl : ∀ x ∈ l, p x = false) (ha : p a = true) :
    extractFirst p (l ++ [a]) = some (a, l) := by
  induction l with
  | nil => simp [extractFirst, ha]
  | cons x xs ih =>
    have hx : p x = false := hl x (List.mem_cons_self x xs)
    have ih' := ih (fun y hy => hl y (List.mem_cons_of_mem x hy))
    rw [List.cons_append, extractFirst, if_neg (by simp [hx]), ih']

theorem updateFirstWith_middle {α β : Type} {p : α → Bool} {f : α → Except String (α × β)}
    {l1 l2 : List α} {a : α} (hl1 : ∀ x ∈ l1, p x = false) (ha : p a = true)
    {a' : α} {b : β} (hf : f a = Except.ok (a', b)) :
    updateFirstWith p f (l1 ++ a :: l2) = Except.ok (l1 ++ a' :: l2, b) := by
  induction l1 with
  | nil => simp [updateFirstWith, ha, hf]
  | cons x xs ih =>
    have hx : p x = false := hl1 x (List.mem_cons_self x xs)
    have ih' := ih (fun y hy => hl1 y (List.mem_cons_of_mem x hy))
    rw [List.cons_append, updateFirstWith, if_neg (by simp [hx]), ih']
    exact rfl

theorem softDelete_ok {n s : String} {now : Int} {st st' : Stores} {c : Nat}
    (h : softDelete n s now st = Except.ok (st', c)) :
    ∃ o remaining,
      extractFirst (fun o => o.order_number == n) st.orders = some (o, remaining) ∧
      st' = { st with
          orders := remaining,
          deletedOrders := st.deletedOrders ++
            [{ o with deleted_at := some now,
                      deleted_by := some (jsOr s "manager"),
                      original_status := some o.status,
                      status := "deleted" }],
          audit := st.audit ++ [⟨"ORDER_MOVED_TO_RECYCLE", n, jsOr s "manager"⟩] } := by
  cases hE : extractFirst (fun o => o.order_number == n) st.orders with
  | none => unfold softDelete at h; rw [hE] at h; cases h
  | some pr =>
    obtain ⟨o, remaining⟩ := pr
    unfold softDelete at h
    rw [hE] at h
    simp only [Except.ok.injEq, Prod.mk.injEq] at h
    exact ⟨o, remaining, rfl, h.1.symm⟩

theorem restore_ok {n s : String} {st st' : Stores}
    (h : restore n s st = Except.ok st') :
    ∃ o remaining,
      extractFirst (fun o => o.order_number == n) st.deletedOrders = some (o, remaining) ∧
      st' = { st with
          deletedOrders := remaining,
          orders := st.orders ++
            [{ o with status := jsOrOpt o.original_status "received",
                      deleted_at := none,
                      deleted_by := none,
                      original_status := none }],
          audit := st.audit ++ [⟨"ORDER_RESTORED", n, jsOr s "manager"⟩] } := by
  cases hE : extractFirst (fun o => o.order_number == n) st.deletedOrders with
  | none => unfold restore at h; rw [hE] at h; cases h
  | some pr =>
    obtain ⟨o, remaining⟩ := pr
    unfold restore at h
    rw [hE] at h
    simp only [Except.ok.injEq] at h
    exact ⟨o, remaining, rfl, h.symm⟩

theorem permanentlyDelete_ok {n s : String} {now : Int} {st st' : Stores} {ex : ExportRecord}
    (h : permanentlyDelete n s now st = Except.ok (st', ex)) :
    ∃ o remaining,
      extractFirst (fun o => o.order_number == n) st.deletedOrders = some (o, remaining) ∧
      st' = { st with
          deletedOrders := remaining,
          exports := st.exports ++ [exportOrderData o now],
          audit := st.audit ++ [⟨"ORDER_PERMANENTLY_DELETED", n, jsOr s "manager"⟩] } := by
  cases hE : extractFirst (fun o => o.order_number == n) st.deletedOrders with
  | none => unfold permanentlyDelete at h; rw [hE] at h; cases h
  | some pr =>
    obtain ⟨o, remaining⟩ := pr
    unfold permanentlyDelete at h
    rw [hE] at h
    simp only [Except.ok.injEq, Prod.mk.injEq] at h
    exact ⟨o, remaining, rfl, h.1.symm⟩

end Wickrama

namespace Wickrama

/-! ### Concrete records used by closed statements -/

/-- A well-formed order as produced by a complete create request (the
scenario of spec section 8). -/
def baseOrder : Order :=
  { order_number := "WHS-001",
    customer_name := some "Jane",
    customer_phone := some "0771234567",
    items := some ["X1"],
    payment_method := some "cash",
    invoice_number := "",
    status := "received",
    created_at := 0,
    created_by := some "staff1",
    approvals := [],
    status_history := [{ status := "received", timestamp := 0, staff := some "staff1" }],
    deleted_at := none,
    deleted_by := none,
    original_status := none }

/-- A complete create request (the scenario of spec section 8). -/
def baseReq : CreateReq :=
  { customerName := some "Jane",
    customerPhone := some "0771234567",
    items := some ["X1"],
    paymentMethod := some "cash",
    staffName := some "staff1" }

/-! ### C7 -/

/-- The request with every required field absent. -/
def emptyReq : CreateReq :=
  { customerName := none,
    customerPhone := none,
    items := none,
    paymentMethod := none,
    staffName := none }

/-- C7: the claim says createOrder fails with ValidationError when a
required field is absent and that no order is then added. The create
handler has no validation branch at all: on the request with every field
absent it still appends one order to the Order Store and answers success
with the allocated order number. -/
theorem c7_create_skips_validation :
    (createOrder emptyReq 0 emptyStores).1.orders.length = 1 ∧
    (createOrder emptyReq 0 emptyStores).2 = "WHS-001" :=
  ⟨by decide, by decide⟩

/-! ### C1 -/

/-- The request sequence exhibiting the order-number collision: two
creates, a soft delete of the first order, then another create. -/
def c1Ops : List Op :=
  [Op.create baseReq 0, Op.create baseReq 0,
   Op.softDel "WHS-001" "manager" 0, Op.create baseReq 0]

/-- C1: order-number uniqueness is not an invariant of the reachable
states. generateOrderNumber derives the next number from the current
length of the active list, so after create, create, softDelete of
WHS-001, create, the Order Store holds two distinct orders both numbered
WHS-002. -/
theorem c1_order_number_collision :
    (runOps emptyStores c1Ops).orders.map (fun o => o.order_number) = ["WHS-002", "WHS-002"] ∧
    ¬ ((runOps emptyStores c1Ops).orders.map (fun o => o.order_number)).Nodup :=
  ⟨by decide, by decide⟩

/-! ### C9 -/

/-- C9: the recycle-bin entry created by softDelete carries status
"deleted" while the pre-deletion status is saved in original_status; the
entry agrees with the removed order on every field other than status and
the three deletion-metadata fields. -/
theorem c9_bin_entry_marked_deleted (st : Stores) (n s : String) (now : Int)
    (o : Order) (remaining : List Order)
    (hex : extractFirst (fun x => x.order_number == n) st.orders = some (o, remaining)) :
    ∃ st' c, softDelete n s now st = Except.ok (st', c) ∧
      ∃ e, st'.deletedOrders = st.deletedOrders ++ [e] ∧
        e.status = "deleted" ∧ e.original_status = some o.status ∧
        e.deleted_at = some now ∧ e.deleted_by = some (jsOr s "manager") ∧
        e.order_number = o.order_number ∧ e.customer_name = o.customer_name ∧
        e.customer_phone = o.customer_phone ∧ e.items = o.items ∧
        e.payment_method = o.payment_method ∧ e.invoice_number = o.invoice_number ∧
        e.created_at = o.created_at ∧ e.created_by = o.created_by ∧
        e.approvals = o.approvals ∧ e.status_history = o.status_history := by
  unfold softDelete
  rw [hex]
  exact ⟨_, _, rfl, _, rfl, rfl, rfl, rfl, rfl, rfl, rfl, rfl, rfl, rfl, rfl, rfl, rfl, rfl, rfl⟩

/-- Witness for C9 at a one-order store. -/
theorem c9_bin_entry_marked_deleted_witness :
    (extractFirst (fun x => x.order_number == "WHS-001")
        ({ orders := [baseOrder], deletedOrders := [], exports := [], audit := [] } : Stores).orders =
      some (baseOrder, [])) ∧
    (∃ st' c, softDelete "WHS-001" "boss" 5
        { orders := [baseOrder], deletedOrders := [], exports := [], audit := [] } =
        Except.ok (st', c) ∧
      ∃ e, st'.deletedOrders = [] ++ [e] ∧
        e.status = "deleted" ∧ e.original_status = some baseOrder.status ∧
        e.deleted_at = some 5 ∧ e.deleted_by = some (jsOr "boss" "manager") ∧
        e.order_number = baseOrder.order_number ∧ e.customer_name = baseOrder.customer_name ∧
        e.customer_phone = baseOrder.customer_phone ∧ e.items = baseOrder.items ∧
        e.payment_method = baseOrder.payment_method ∧ e.invoice_number = baseOrder.invoice_number ∧
        e.created_at = baseOrder.created_at ∧ e.created_by = baseOrder.created_by ∧
        e.approvals = baseOrder.approvals ∧ e.status_history = baseOrder.status_history) :=
  ⟨by decide,
   c9_bin_entry_marked_deleted
     { orders := [baseOrder], deletedOrders := [], exports := [], audit := [] }
     "WHS-001" "boss" 5 baseOrder [] (by decide)⟩

end Wickrama

namespace Wickrama

/-! ### C10 -/

/-- Canonical form of the per-order status update: only status,
invoice_number (and that only for a truthy argument) and status_history
change. -/
theorem updateStatusOrder_eq (status staffName : String) (invoiceNumber : Option String)
    (now : Int) (o : Order) :
    updateStatusOrder status staffName invoiceNumber now o =
      { o with
          status := status,
          invoice_number :=
            match invoiceNumber with
            | some inv => if inv = "" then o.invoice_number else inv
            | none => o.invoice_number,
          status_history := o.status_history ++
            [{ status := status, timestamp := now, staff := some staffName }] } := by
  unfold updateStatusOrder
  cases invoiceNumber with
  | none => rfl
  | some inv =>
    by_cases hi : inv = ""
    · simp only [if_pos hi]
    · simp only [if_neg hi]

/-- C10: updateStatus leaves the invoice number unchanged when the
invoiceNumber argument is absent or empty (JS falsy), and it changes no
field of the order other than status, invoice_number and
status_history; the rest of the store is untouched. -/
theorem c10_update_status_frame (l1 l2 : List Order) (o : Order)
    (n status s : String) (inv : Option String) (now : Int)
    (hl1 : ∀ x ∈ l1, (x.order_number == n) = false)
    (ho : (o.order_number == n) = true) :
    ∃ o', updateStatus n status s inv now (l1 ++ o :: l2) = Except.ok (l1 ++ o' :: l2) ∧
      ((inv = none ∨ inv = some "") → o'.invoice_number = o.invoice_number) ∧
      o'.order_number = o.order_number ∧ o'.customer_name = o.customer_name ∧
      o'.customer_phone = o.customer_phone ∧ o'.items = o.items ∧
      o'.payment_method = o.payment_method ∧ o'.created_at = o.created_at ∧
      o'.created_by = o.created_by ∧ o'.approvals = o.approvals ∧
      o'.deleted_at = o.deleted_at ∧ o'.deleted_by = o.deleted_by ∧
      o'.original_status = o.original_status ∧
      o'.status = status ∧
      o'.status_history = o.status_history ++
        [{ status := status, timestamp := now, staff := some s }] := by
  refine ⟨updateStatusOrder status s inv now o, ?_, ?_, ?_, ?_, ?_, ?_, ?_, ?_, ?_, ?_, ?_,
    ?_, ?_, ?_, ?_⟩
  · unfold updateStatus
    rw [updateFirstWith_middle hl1 ho rfl]
  · intro h
    rcases h with rfl | rfl
    · rw [updateStatusOrder_eq]
    · rw [updateStatusOrder_eq]; simp
  all_goals rw [updateStatusOrder_eq]

/-- Witness for C10 at a one-order store with an absent invoice number. -/
theorem c10_update_status_frame_witness :
    ((∀ x ∈ ([] : List Order), (x.order_number == "WHS-001") = false) ∧
      (baseOrder.order_number == "WHS-001") = true) ∧
    (∃ o', updateStatus "WHS-001" "packed" "staff2" none 7 ([] ++ baseOrder :: []) =
        Except.ok ([] ++ o' :: []) ∧
      ((none = (none : Option String) ∨ none = some "") →
        o'.invoice_number = baseOrder.invoice_number) ∧
      o'.order_number = baseOrder.order_number ∧ o'.customer_name = baseOrder.customer_name ∧
      o'.customer_phone = baseOrder.customer_phone ∧ o'.items = baseOrder.items ∧
      o'.payment_method = baseOrder.payment_method ∧ o'.created_at = baseOrder.created_at ∧
      o'.created_by = baseOrder.created_by ∧ o'.approvals = baseOrder.approvals ∧
      o'.deleted_at = baseOrder.deleted_at ∧ o'.deleted_by = baseOrder.deleted_by ∧
      o'.original_status = baseOrder.original_status ∧
      o'.status = "packed" ∧
      o'.status_history = baseOrder.status_history ++
        [{ status := "packed", timestamp := 7, staff := some "staff2" }]) :=
  ⟨⟨by simp, by decide⟩,
   c10_update_status_frame [] [] baseOrder "WHS-001" "packed" "staff2" none 7
     (by simp) (by decide)⟩

/-! ### C2 -/

/-- C2: the third distinct approval while the status is still "received"
promotes the order to "approved", appends exactly one SYSTEM-authored
history entry and answers the new approval count 3; and any later
successful approval on an order whose status is "approved" (as it is
from the promotion on) leaves status and history unchanged while still
answering the new approval count. -/
theorem c2_third_approval_promotes_once (o : Order) (s : String) (now : Int)
    (h2 : o.approvals.length = 2) (hst : o.status = "received")
    (hnot : ∀ a ∈ o.approvals, (a.staff == s) = false) :
    (∃ o', addApprovalToOrder s now o = Except.ok (o', 3) ∧
       o'.status = "approved" ∧ o'.approvals.length = 3 ∧
       o'.status_history = o.status_history ++
         [{ status := "approved", timestamp := now, staff := some "SYSTEM" }]) ∧
    (∀ (s' : String) (now' : Int) (p p' : Order) (k : Nat), p.status = "approved" →
       addApprovalToOrder s' now' p = Except.ok (p', k) →
       p'.status = p.status ∧ p'.status_history = p.status_history ∧
       k = p'.approvals.length) := by
  constructor
  · have hfind : o.approvals.find? (fun a => a.staff == s) = none :=
      List.find?_eq_none.mpr (fun a ha => by simp [hnot a ha])
    have hc : 3 ≤ (o.approvals ++ [({ staff := s, timestamp := now } : Approval)]).length ∧
        o.status = "received" := by
      refine ⟨?_, hst⟩
      simp [h2]
    simp only [addApprovalToOrder, hfind]
    rw [if_pos hc]
    refine ⟨{ o with
              approvals := o.approvals ++ [{ staff := s, timestamp := now }],
              status := "approved",
              status_history := o.status_history ++
                [{ status := "approved", timestamp := now, staff := some "SYSTEM" }] },
      ?_, rfl, ?_, rfl⟩
    · simp [h2]
    · simp [h2]
  · intro s' now' p p' k hp h
    cases hf : p.approvals.find? (fun a => a.staff == s') with
    | some a => unfold addApprovalToOrder at h; rw [hf] at h; cases h
    | none =>
      have hcneg : ¬ (3 ≤ (p.approvals ++ [({ staff := s', timestamp := now' } : Approval)]).length ∧
          p.status = "received") := by
        intro hcon
        exact absurd (hp.symm.trans hcon.2) (by decide)
      simp only [addApprovalToOrder, hf] at h
      rw [if_neg hcneg] at h
      simp only [Except.ok.injEq, Prod.mk.injEq] at h
      obtain ⟨rfl, rfl⟩ := h
      exact ⟨rfl, rfl, rfl⟩

end Wickrama

namespace Wickrama

/-- An order already carrying two distinct approvals. -/
def c2Order : Order :=
  { baseOrder with approvals := [{ staff := "staff1", timestamp := 0 },
                                 { staff := "staff2", timestamp := 0 }] }

/-- Witness for C2: the third approval on a two-approval received order. -/
theorem c2_third_approval_promotes_once_witness :
    (c2Order.approvals.length = 2 ∧ c2Order.status = "received" ∧
      ∀ a ∈ c2Order.approvals, (a.staff == "staff3") = false) ∧
    ((∃ o', addApprovalToOrder "staff3" 9 c2Order = Except.ok (o', 3) ∧
        o'.status = "approved" ∧ o'.approvals.length = 3 ∧
        o'.status_history = c2Order.status_history ++
          [{ status := "approved", timestamp := 9, staff := some "SYSTEM" }]) ∧
      (∀ (s' : String) (now' : Int) (p p' : Order) (k : Nat), p.status = "approved" →
        addApprovalToOrder s' now' p = Except.ok (p', k) →
        p'.status = p.status ∧ p'.status_history = p.status_history ∧
        k = p'.approvals.length)) :=
  ⟨⟨by decide, by decide, by decide⟩,
   c2_third_approval_promotes_once c2Order "staff3" 9 (by decide) (by decide) (by decide)⟩

/-! ### C6 -/

/-- C6: an approval by a staff member who already has one fails with the
duplicate-approval error (the handler answers 400 before any mutation,
so the store is left exactly as it was), while an approval by a distinct
staff member succeeds and raises the approval count by exactly one,
answering the new count. -/
theorem c6_duplicate_approval_rejected (o : Order) (s s' : String) (now : Int)
    (hdup : ∃ a ∈ o.approvals, a.staff = s)
    (hfresh : ∀ a ∈ o.approvals, (a.staff == s') = false) :
    addApprovalToOrder s now o = Except.error "Staff member already approved this order" ∧
    ∃ o' k, addApprovalToOrder s' now o = Except.ok (o', k) ∧
      o'.approvals.length = o.approvals.length + 1 ∧ k = o'.approvals.length := by
  constructor
  · obtain ⟨a, ha, hs⟩ := hdup
    have hsome : (o.approvals.find? (fun x => x.staff == s)).isSome := by
      rw [List.find?_isSome]
      exact ⟨a, ha, by simp [hs]⟩
    obtain ⟨b, hb⟩ := Option.isSome_iff_exists.mp hsome
    unfold addApprovalToOrder
    rw [hb]
  · have hfind : o.approvals.find? (fun x => x.staff == s') = none :=
      List.find?_eq_none.mpr (fun a ha => by simp [hfresh a ha])
    simp only [addApprovalToOrder, hfind]
    by_cases hc : 3 ≤ (o.approvals ++ [({ staff := s', timestamp := now } : Approval)]).length ∧
        o.status = "received"
    · rw [if_pos hc]
      exact ⟨_, _, rfl, by simp, rfl⟩
    · rw [if_neg hc]
      exact ⟨_, _, rfl, by simp, rfl⟩

/-- Witness for C6 on an order with one prior approval. -/
theorem c6_duplicate_approval_rejected_witness :
    ((∃ a ∈ ({ baseOrder with approvals := [{ staff := "staff1", timestamp := 0 }] } : Order).approvals,
        a.staff = "staff1") ∧
      (∀ a ∈ ({ baseOrder with approvals := [{ staff := "staff1", timestamp := 0 }] } : Order).approvals,
        (a.staff == "staff2") = false)) ∧
    (addApprovalToOrder "staff1" 4 { baseOrder with approvals := [{ staff := "staff1", timestamp := 0 }] } =
        Except.error "Staff member already approved this order" ∧
      ∃ o' k, addApprovalToOrder "staff2" 4
          { baseOrder with approvals := [{ staff := "staff1", timestamp := 0 }] } =
          Except.ok (o', k) ∧
        o'.approvals.length =
          ({ baseOrder with approvals := [{ staff := "staff1", timestamp := 0 }] } : Order).approvals.length + 1 ∧
        k = o'.approvals.length) :=
  ⟨⟨by decide, by decide⟩,
   c6_duplicate_approval_rejected
     { baseOrder with approvals := [{ staff := "staff1", timestamp := 0 }] }
     "staff1" "staff2" 4 (by decide) (by decide)⟩

end Wickrama

namespace Wickrama

/-! ### C3 -/

/-- An order whose status is the empty string, reachable because the
status-update handler stores any status value unconditionally. -/
def c3Order : Order := { baseOrder with status := "" }

/-- The one-order store holding the empty-status order. -/
def c3St : Stores := { orders := [c3Order], deletedOrders := [], exports := [], audit := [] }

/-- The statuses of the active orders after soft-deleting and then
restoring WHS-001 in that store. -/
def c3RestoredStatuses : List String :=
  match softDelete "WHS-001" "mgr" 5 c3St with
  | Except.ok (st1, _) =>
    match restore "WHS-001" "mgr" st1 with
    | Except.ok st2 => st2.orders.map (fun o => o.status)
    | Except.error _ => []
  | Except.error _ => []

/-- C3 counterexample: soft delete followed by restore is not the
identity on the status field for an order whose status is the empty
string. The restore handler evaluates original_status with the JS
or-else idiom, so the saved empty string is falsy and the order comes
back as "received". -/
theorem c3_empty_status_counterexample :
    c3St.orders.map (fun o => o.status) = [""] ∧ c3RestoredStatuses = ["received"] :=
  ⟨by decide, by decide⟩

/-- C3 (amended): for an order whose status is non-empty and whose
number is not already present in the recycle bin, softDelete followed by
restore reproduces the order exactly — same visible fields, same status,
same status history — with the three deletion-metadata fields absent,
and leaves the recycle bin as it was. -/
theorem c3_soft_delete_restore_identity (st : Stores) (n s s' : String) (t : Int)
    (o : Order) (rest : List Order)
    (hex : extractFirst (fun x => x.order_number == n) st.orders = some (o, rest))
    (hbin : ∀ b ∈ st.deletedOrders, (b.order_number == n) = false)
    (hne : o.status ≠ "") :
    ∃ st1 c, softDelete n s t st = Except.ok (st1, c) ∧
      ∃ st2, restore n s' st1 = Except.ok st2 ∧
        st2.orders = rest ++
          [{ o with deleted_at := none, deleted_by := none, original_status := none }] ∧
        st2.deletedOrders = st.deletedOrders := by
  unfold softDelete
  rw [hex]
  refine ⟨_, _, rfl, ?_⟩
  have hmark : (fun x : Order => x.order_number == n)
      ({ o with deleted_at := some t,
                deleted_by := some (jsOr s "manager"),
                original_status := some o.status,
                status := "deleted" }) = true := by
    simpa using (extractFirst_eq_some hex).1
  unfold restore
  rw [extractFirst_append_singleton hbin hmark]
  refine ⟨_, rfl, ?_, rfl⟩
  have hrs : jsOrOpt (some o.status) "received" = o.status := by
    show (if o.status = "" then "received" else o.status) = o.status
    rw [if_neg hne]
  simp only [hrs]

end Wickrama

namespace Wickrama

/-- Witness for the amended C3 on a one-order store with a non-empty
status. -/
theorem c3_soft_delete_restore_identity_witness :
    ((extractFirst (fun x => x.order_number == "WHS-001")
        ({ orders := [baseOrder], deletedOrders := [], exports := [], audit := [] } : Stores).orders =
          some (baseOrder, [])) ∧
      (∀ b ∈ ({ orders := [baseOrder], deletedOrders := [], exports := [], audit := [] } : Stores).deletedOrders,
        (b.order_number == "WHS-001") = false) ∧
      baseOrder.status ≠ "") ∧
    (∃ st1 c, softDelete "WHS-001" "mgr" 3
        { orders := [baseOrder], deletedOrders := [], exports := [], audit := [] } =
        Except.ok (st1, c) ∧
      ∃ st2, restore "WHS-001" "mgr" st1 = Except.ok st2 ∧
        st2.orders = [] ++
          [{ baseOrder with deleted_at := none, deleted_by := none, original_status := none }] ∧
        st2.deletedOrders =
          ({ orders := [baseOrder], deletedOrders := [], exports := [], audit := [] } : Stores).deletedOrders) :=
  ⟨⟨by decide, by simp, by decide⟩,
   c3_soft_delete_restore_identity
     { orders := [baseOrder], deletedOrders := [], exports := [], audit := [] }
     "WHS-001" "mgr" "mgr" 3 baseOrder [] (by decide) (by simp) (by decide)⟩

end Wickrama

namespace Wickrama

/-! ### C5 -/

/-- The age test exactly as claim C5 words it: an entry is kept when its
deletion timestamp is less than seven days before now (an entry without
a timestamp is never kept, matching the NaN comparison in the code). -/
def c5Kept (now : Int) (o : Order) : Bool :=
  match o.deleted_at with
  | some t => decide (now - t < sevenDays)
  | none => false

/-- The claim-side keep test agrees with the cutoff comparison the code
performs. -/
theorem c5Kept_eq_cleanupKeeps (now : Int) : c5Kept now = cleanupKeeps now := by
  funext o
  unfold c5Kept cleanupKeeps
  cases o.deleted_at with
  | none => rfl
  | some t =>
    exact decide_eq_decide.mpr (by omega)

/-- autoCleanup is the identity on a bin every entry of which passes the
keep test. -/
theorem autoCleanup_id_of_kept (now : Int) (st : Stores)
    (hall : ∀ a ∈ st.deletedOrders, cleanupKeeps now a = true) :
    autoCleanupDeletedOrders now st = st := by
  have hp2 : st.deletedOrders.filter (fun o => !(cleanupKeeps now o)) = [] :=
    List.filter_eq_nil_iff.mpr (fun a ha => by simp [hall a ha])
  unfold autoCleanupDeletedOrders
  rw [hp2]
  simp

/-- C5: autoCleanup partitions the recycle bin by age: entries whose
deletion timestamp is less than seven days before now are kept
(in order), every other entry is exported and removed with one SYSTEM
audit record per purged entry, and running autoCleanup twice at the same
instant is idempotent: the second run changes no state and produces no
exports. -/
theorem c5_auto_cleanup_partition_idempotent (now : Int) (st : Stores) :
    (autoCleanupDeletedOrders now st).deletedOrders =
      st.deletedOrders.filter (c5Kept now) ∧
    (autoCleanupDeletedOrders now st).exports =
      st.exports ++ (st.deletedOrders.filter (fun o => !(c5Kept now o))).map
        (fun o => exportOrderData o now) ∧
    (autoCleanupDeletedOrders now st).audit =
      st.audit ++ (st.deletedOrders.filter (fun o => !(c5Kept now o))).map
        (fun o => ({ action := "AUTO_CLEANUP", orderId := o.order_number, staff := "SYSTEM" } : AuditRecord)) ∧
    autoCleanupDeletedOrders now (autoCleanupDeletedOrders now st) =
      autoCleanupDeletedOrders now st := by
  rw [c5Kept_eq_cleanupKeeps]
  have hA : (autoCleanupDeletedOrders now st).deletedOrders =
      st.deletedOrders.filter (cleanupKeeps now) := by
    unfold autoCleanupDeletedOrders
    by_cases hp : 0 < (st.deletedOrders.filter (fun o => !(cleanupKeeps now o))).length
    · rw [if_pos hp]
    · rw [if_neg hp]
      have hnil : st.deletedOrders.filter (fun o => !(cleanupKeeps now o)) = [] :=
        List.eq_nil_of_length_eq_zero (Nat.eq_zero_of_not_pos hp)
      have hall : ∀ a ∈ st.deletedOrders, cleanupKeeps now a = true := by
        intro a ha
        have := List.filter_eq_nil_iff.mp hnil a ha
        simpa using this
      exact (List.filter_eq_self.mpr hall).symm
  have hB : (autoCleanupDeletedOrders now st).exports =
      st.exports ++ (st.deletedOrders.filter (fun o => !(cleanupKeeps now o))).map
        (fun o => exportOrderData o now) := by
    unfold autoCleanupDeletedOrders
    by_cases hp : 0 < (st.deletedOrders.filter (fun o => !(cleanupKeeps now o))).length
    · rw [if_pos hp]
    · rw [if_neg hp]
  have hC : (autoCleanupDeletedOrders now st).audit =
      st.audit ++ (st.deletedOrders.filter (fun o => !(cleanupKeeps now o))).map
        (fun o => ({ action := "AUTO_CLEANUP", orderId := o.order_number, staff := "SYSTEM" } : AuditRecord)) := by
    unfold autoCleanupDeletedOrders
    by_cases hp : 0 < (st.deletedOrders.filter (fun o => !(cleanupKeeps now o))).length
    · rw [if_pos hp]
    · rw [if_neg hp]
  refine ⟨hA, hB, hC, ?_⟩
  apply autoCleanup_id_of_kept
  rw [hA]
  intro a ha
  exact (List.mem_filter.mp ha).2

end Wickrama

namespace Wickrama

/-! ### C8 -/

/-- The match rule exactly as claim C8 states it: case-insensitive
substring of the customer name or order number, or substring of the
phone, where the phone match also succeeds on digit-only normalization
of both sides. -/
def c8ClaimMatches (q : String) (o : Order) : Bool :=
  match o.customer_name, o.customer_phone with
  | some name, some phone =>
    strContains (toLowerStr name) (toLowerStr q) ||
    strContains (toLowerStr o.order_number) (toLowerStr q) ||
    strContains phone q ||
    strContains (digitsOnly phone) (digitsOnly q)
  | _, _ => false

/-- The match rule as amended: the digit-only normalization disjunct is
dropped, because the search handler compares the phone with a plain
substring test only (the digit-only normalization exists only in the
customer-lookup handler, which does exact order-number matching, not
search). -/
def c8AmendedMatches (q : String) (o : Order) : Bool :=
  match o.customer_name, o.customer_phone with
  | some name, some phone =>
    strContains (toLowerStr name) (toLowerStr q) ||
    strContains (toLowerStr o.order_number) (toLowerStr q) ||
    strContains phone q
  | _, _ => false

/-- C8 counterexample: for the query "077-123" against Jane's order
(phone 0771234567), the digit-only normalizations match, so the claim
says the order is returned; the search handler returns nothing because
it only runs the plain substring test on the phone. -/
theorem c8_digit_normalization_counterexample :
    searchOrders (some "077-123") none [baseOrder] = [] ∧
    [baseOrder].filter (c8ClaimMatches "077-123") = [baseOrder] :=
  ⟨by decide, by decide⟩

/-- C8 (amended): for a truthy query and a store of orders whose name
and phone fields are present, the search handler returns exactly the
orders matched by the amended rule. -/
theorem c8_search_characterization (q : String) (orders : List Order) (hq : q ≠ "")
    (hwf : ∀ o ∈ orders, o.customer_name ≠ none ∧ o.customer_phone ≠ none) :
    searchOrders (some q) none orders = orders.filter (c8AmendedMatches q) := by
  show (if q = "" then orders else orders.filter (matchesSearch q)) =
    orders.filter (c8AmendedMatches q)
  rw [if_neg hq]
  apply List.filter_congr
  intro o ho
  obtain ⟨hn, hp⟩ := hwf o ho
  cases hcn : o.customer_name with
  | none => exact absurd hcn hn
  | some name =>
    cases hcp : o.customer_phone with
    | none => exact absurd hcp hp
    | some phone =>
      unfold matchesSearch c8AmendedMatches
      rw [hcn, hcp]
      rfl

/-- Witness for the amended C8 on a one-order store and the query
"jane". -/
theorem c8_search_characterization_witness :
    ("jane" ≠ "" ∧
      ∀ o ∈ [baseOrder], o.customer_name ≠ none ∧ o.customer_phone ≠ none) ∧
    searchOrders (some "jane") none [baseOrder] = [baseOrder].filter (c8AmendedMatches "jane") :=
  ⟨⟨by decide, by decide⟩,
   c8_search_characterization "jane" [baseOrder] (by decide) (by decide)⟩

end Wickrama


namespace Wickrama

/-! ### C4 -/

/-- The strengthened precondition of claim C4: disjoint stores whose
order numbers are, per store, pairwise distinct. -/
def recycleInv (st : Stores) : Prop :=
  (st.orders.map (fun o => o.order_number)).Nodup ∧
  (st.deletedOrders.map (fun o => o.order_number)).Nodup ∧
  storesDisjoint st

theorem recycleInv_softDelete {n s : String} {now : Int} {st st' : Stores} {c : Nat}
    (h : softDelete n s now st = Except.ok (st', c)) (hinv : recycleInv st) :
    recycleInv st' := by
  obtain ⟨o, remaining, hex, rfl⟩ := softDelete_ok h
  obtain ⟨h1, h2, h3⟩ := hinv
  unfold storesDisjoint at h3
  obtain ⟨-, l1, l2, -, horders, hrem⟩ := extractFirst_eq_some hex
  subst hrem
  have ho_mem : o ∈ st.orders := by rw [horders]; simp
  have hnums : st.orders.map (fun x => x.order_number) =
      l1.map (fun x => x.order_number) ++ o.order_number :: l2.map (fun x => x.order_number) := by
    rw [horders]; simp
  have hmid : (l1.map (fun x => x.order_number) ++
      o.order_number :: l2.map (fun x => x.order_number)).Nodup := by
    rw [← hnums]; exact h1
  have hcons := List.nodup_middle.mp hmid
  have hnotin := (List.nodup_cons.mp hcons).1
  have hrest_nodup := (List.nodup_cons.mp hcons).2
  have hm_notin_bin : o.order_number ∉ st.deletedOrders.map (fun b => b.order_number) :=
    h3 o ho_mem
  unfold recycleInv storesDisjoint
  dsimp only
  refine ⟨?_, ?_, ?_⟩
  · rw [List.map_append]
    exact hrest_nodup
  · rw [List.map_append, List.map_singleton]
    dsimp only
    refine List.Nodup.append h2 (List.nodup_singleton _) ?_
    intro x hx hx'
    rw [List.mem_singleton] at hx'
    subst hx'
    exact hm_notin_bin hx
  · intro x hx
    rw [List.map_append, List.map_singleton]
    dsimp only
    intro hmem
    rcases List.mem_append.mp hmem with hmem' | hmem'
    · have hx_orders : x ∈ st.orders := by
        rw [horders]
        rcases List.mem_append.mp hx with hl | hl
        · exact List.mem_append_left _ hl
        · exact List.mem_append_right _ (List.mem_cons_of_mem _ hl)
      exact h3 x hx_orders hmem'
    · rw [List.mem_singleton] at hmem'
      have hfx : x.order_number ∈ l1.map (fun y => y.order_number) ++
          l2.map (fun y => y.order_number) := by
        rcases List.mem_append.mp hx with hl | hl
        · exact List.mem_append_left _ (List.mem_map_of_mem _ hl)
        · exact List.mem_append_right _ (List.mem_map_of_mem _ hl)
      rw [hmem'] at hfx
      exact hnotin hfx

theorem recycleInv_restore {n s : String} {st st' : Stores}
    (h : restore n s st = Except.ok st') (hinv : recycleInv st) :
    recycleInv st' := by
  obtain ⟨o, remaining, hex, rfl⟩ := restore_ok h
  obtain ⟨h1, h2, h3⟩ := hinv
  unfold storesDisjoint at h3
  obtain ⟨-, l1, l2, -, hbin, hrem⟩ := extractFirst_eq_some hex
  subst hrem
  have ho_mem : o ∈ st.deletedOrders := by rw [hbin]; simp
  have hm_in_bin : o.order_number ∈ st.deletedOrders.map (fun b => b.order_number) :=
    List.mem_map_of_mem _ ho_mem
  have hnums : st.deletedOrders.map (fun x => x.order_number) =
      l1.map (fun x => x.order_number) ++ o.order_number :: l2.map (fun x => x.order_number) := by
    rw [hbin]; simp
  have hmid : (l1.map (fun x => x.order_number) ++
      o.order_number :: l2.map (fun x => x.order_number)).Nodup := by
    rw [← hnums]; exact h2
  have hcons := List.nodup_middle.mp hmid
  have hnotin := (List.nodup_cons.mp hcons).1
  have hrest_nodup := (List.nodup_cons.mp hcons).2
  have hrem_sub : ∀ y : String, y ∈ l1.map (fun x => x.order_number) ++
      l2.map (fun x => x.order_number) →
      y ∈ st.deletedOrders.map (fun x => x.order_number) := by
    intro y hy
    rw [hnums]
    rcases List.mem_append.mp hy with hl | hl
    · exact List.mem_append_left _ hl
    · exact List.mem_append_right _ (List.mem_cons_of_mem _ hl)
  have hm_notin_orders : o.order_number ∉ st.orders.map (fun x => x.order_number) := by
    intro hmem
    obtain ⟨x, hx_mem, hx_eq⟩ := List.mem_map.mp hmem
    exact h3 x hx_mem (hx_eq ▸ hm_in_bin)
  unfold recycleInv storesDisjoint
  dsimp only
  refine ⟨?_, ?_, ?_⟩
  · rw [List.map_append, List.map_singleton]
    dsimp only
    refine List.Nodup.append h1 (List.nodup_singleton _) ?_
    intro y hy hy'
    rw [List.mem_singleton] at hy'
    subst hy'
    exact hm_notin_orders hy
  · rw [List.map_append]
    exact hrest_nodup
  · intro x hx
    rw [List.map_append]
    rcases List.mem_append.mp hx with hl | hl
    · intro hmem
      exact h3 x hl (hrem_sub _ hmem)
    · rw [List.mem_singleton] at hl
      subst hl
      dsimp only
      rw [← List.map_append]
      intro hmem
      exact hnotin (by rw [List.map_append] at hmem; exact hmem)

theorem recycleInv_permanentlyDelete {n s : String} {now : Int} {st st' : Stores}
    {ex : ExportRecord}
    (h : permanentlyDelete n s now st = Except.ok (st', ex)) (hinv : recycleInv st) :
    recycleInv st' := by
  obtain ⟨o, remaining, hex, rfl⟩ := permanentlyDelete_ok h
  obtain ⟨h1, h2, h3⟩ := hinv
  unfold storesDisjoint at h3
  obtain ⟨-, l1, l2, -, hbin, hrem⟩ := extractFirst_eq_some hex
  subst hrem
  have hnums : st.deletedOrders.map (fun x => x.order_number) =
      l1.map (fun x => x.order_number) ++ o.order_number :: l2.map (fun x => x.order_number) := by
    rw [hbin]; simp
  have hmid : (l1.map (fun x => x.order_number) ++
      o.order_number :: l2.map (fun x => x.order_number)).Nodup := by
    rw [← hnums]; exact h2
  have hrest_nodup := (List.nodup_cons.mp (List.nodup_middle.mp hmid)).2
  unfold recycleInv storesDisjoint
  dsimp only
  refine ⟨h1, ?_, ?_⟩
  · rw [List.map_append]
    exact hrest_nodup
  · intro x hx
    intro hmem
    apply h3 x hx
    rw [List.map_append] at hmem
    rw [hnums]
    rcases List.mem_append.mp hmem with hl | hl
    · exact List.mem_append_left _ hl
    · exact List.mem_append_right _ (List.mem_cons_of_mem _ hl)

theorem recycleInv_applyOp {st : Stores} {op : Op} (hop : op.isBin = true)
    (hinv : recycleInv st) : recycleInv (applyOp st op) := by
  cases op with
  | create req now => simp [Op.isBin] at hop
  | softDel n s now =>
    show recycleInv (match softDelete n s now st with
      | Except.ok (st', _) => st'
      | Except.error _ => st)
    cases h : softDelete n s now st with
    | ok pr =>
      obtain ⟨st', c⟩ := pr
      exact recycleInv_softDelete h hinv
    | error e => exact hinv
  | restoreOp n s =>
    show recycleInv (match restore n s st with
      | Except.ok st' => st'
      | Except.error _ => st)
    cases h : restore n s st with
    | ok st' => exact recycleInv_restore h hinv
    | error e => exact hinv
  | permDel n s now =>
    show recycleInv (match permanentlyDelete n s now st with
      | Except.ok (st', _) => st'
      | Except.error _ => st)
    cases h : permanentlyDelete n s now st with
    | ok pr =>
      obtain ⟨st', ex⟩ := pr
      exact recycleInv_permanentlyDelete h hinv
    | error e => exact hinv

theorem recycleInv_runOps :
    ∀ (ops : List Op) (st : Stores), (∀ op ∈ ops, op.isBin = true) →
      recycleInv st → recycleInv (runOps st ops) := by
  intro ops
  induction ops with
  | nil => intro st _ h; exact h
  | cons op ops ih =>
    intro st hops hinv
    exact ih (applyOp st op) (fun x hx => hops x (List.mem_cons_of_mem op hx))
      (recycleInv_applyOp (hops op (List.mem_cons_self op ops)) hinv)

end Wickrama

namespace Wickrama

/-- Two distinct orders sharing the number WHS-002 (such a store is
reachable, see the C1 collision). -/
def c4CexSt : Stores :=
  { orders := [{ baseOrder with order_number := "WHS-002" },
               { baseOrder with order_number := "WHS-002", created_at := 1 }],
    deletedOrders := [],
    exports := [],
    audit := [] }

/-- C4 counterexample: the stores of c4CexSt are disjoint, yet one
softDelete of WHS-002 moves only the first of the two equally numbered
orders, leaving WHS-002 present in the Order Store and the Recycle Bin
Store at the same time. -/
theorem c4_disjointness_counterexample :
    storesDisjoint c4CexSt ∧
    "WHS-002" ∈ (runOps c4CexSt [Op.softDel "WHS-002" "mgr" 0]).orders.map
      (fun o => o.order_number) ∧
    "WHS-002" ∈ (runOps c4CexSt [Op.softDel "WHS-002" "mgr" 0]).deletedOrders.map
      (fun o => o.order_number) :=
  ⟨by decide, by decide, by decide⟩

/-- C4 (amended): starting from a state whose stores are disjoint and
whose order numbers are pairwise distinct within each store, no
interleaving of softDelete, restore and permanentlyDelete requests ever
produces a state where an order number is present in both the Order
Store and the Recycle Bin Store (every intermediate state is the run of
a prefix, so quantifying over all request lists covers every instant). -/
theorem c4_stores_stay_disjoint (st : Stores) (ops : List Op)
    (hops : ∀ op ∈ ops, op.isBin = true)
    (h1 : (st.orders.map (fun o => o.order_number)).Nodup)
    (h2 : (st.deletedOrders.map (fun o => o.order_number)).Nodup)
    (h3 : storesDisjoint st) :
    storesDisjoint (runOps st ops) :=
  (recycleInv_runOps ops st hops ⟨h1, h2, h3⟩).2.2

/-- Witness for the amended C4: a delete-restore-purge interleaving on a
one-order store. -/
theorem c4_stores_stay_disjoint_witness :
    ((∀ op ∈ [Op.softDel "WHS-001" "mgr" 0, Op.restoreOp "WHS-001" "mgr",
        Op.permDel "WHS-001" "mgr" 1], op.isBin = true) ∧
      (({ orders := [baseOrder], deletedOrders := [], exports := [], audit := [] } : Stores).orders.map
        (fun o => o.order_number)).Nodup ∧
      (({ orders := [baseOrder], deletedOrders := [], exports := [], audit := [] } : Stores).deletedOrders.map
        (fun o => o.order_number)).Nodup ∧
      storesDisjoint { orders := [baseOrder], deletedOrders := [], exports := [], audit := [] }) ∧
    storesDisjoint (runOps { orders := [baseOrder], deletedOrders := [], exports := [], audit := [] }
      [Op.softDel "WHS-001" "mgr" 0, Op.restoreOp "WHS-001" "mgr",
       Op.permDel "WHS-001" "mgr" 1]) :=
  ⟨⟨by decide, by decide, by decide, by decide⟩,
   c4_stores_stay_disjoint
     { orders := [baseOrder], deletedOrders := [], exports := [], audit := [] }
     [Op.softDel "WHS-001" "mgr" 0, Op.restoreOp "WHS-001" "mgr",
      Op.permDel "WHS-001" "mgr" 1]
     (by decide) (by decide) (by decide) (by decide)⟩

end Wickrama
